import Mathlib

/-!
Shallow embedding of the `crypto` CSV backtester, and proofs checking its
specification against the code.

Sources embedded:
 - `src/broker/paper_broker.py` (class `PaperBroker`)
 - `src/backtest/engine.py` (class `BacktestEngine`, in particular
   `_update_ema`, `_is_above_trend`, `_calculate_position_size`,
   `_check_stop_loss_take_profit` and the candle loop of `run_backtest`)
 - `src/config.py` (the module-level configuration constants)
 - `src/data/load_csv.py` (`validate_candle_row` and the row loop of
   `load_candles`)

Python floats are embedded as `ℚ` (the program only ever performs field
operations and comparisons on them, which are exact over the rationals);
Python dicts keyed by symbol are embedded as association lists with Python's
update-in-place-or-append-at-end semantics; a Python method that mutates
`self` becomes a function returning the new object (paired with the method's
return value where it has one).
-/

/-- A broker position: the Python dict `{"amount": float, "entry_price": float}`
stored in `PaperBroker.positions`. -/
structure Position where
  amount : ℚ
  entry_price : ℚ
deriving Repr, DecidableEq

/-- Lookup in a Python dict `{symbol: position}` embedded as an association
list (`positions[symbol]`, or `none` when `symbol not in positions`). -/
def lookupPos : List (String × Position) → String → Option Position
  | [], _ => none
  | (s, p) :: rest, symbol => if s = symbol then some p else lookupPos rest symbol

/-- Assignment `positions[symbol] = p` on a Python dict embedded as an
association list: replace the binding in place if the key is present,
otherwise append it at the end (Python dicts preserve insertion order). -/
def setPos : List (String × Position) → String → Position → List (String × Position)
  | [], symbol, p => [(symbol, p)]
  | (s, q) :: rest, symbol, p =>
      if s = symbol then (s, p) :: rest else (s, q) :: setPos rest symbol p

/-- Lookup in a Python dict `{symbol: price}` embedded as an association
list (used for the `prices` argument of `get_equity`). -/
def lookupPrice : List (String × ℚ) → String → Option ℚ
  | [], _ => none
  | (s, p) :: rest, symbol => if s = symbol then some p else lookupPrice rest symbol

/-- The `PaperBroker` object of `src/broker/paper_broker.py`: starting cash,
current cash and the `{symbol: {"amount", "entry_price"}}` positions dict. -/
structure PaperBroker where
  initial_cash : ℚ
  cash : ℚ
  positions : List (String × Position)
deriving Repr, DecidableEq

namespace PaperBroker

/-- Constructor `PaperBroker.__init__(initial_cash)`. -/
def init (initial_cash : ℚ) : PaperBroker :=
  ⟨initial_cash, initial_cash, []⟩

/-- Method `has_position`: true iff `symbol` is a key of `positions` and the
stored amount is `> 0`. -/
def has_position (b : PaperBroker) (symbol : String) : Bool :=
  match lookupPos b.positions symbol with
  | none => false
  | some p => decide (p.amount > 0)

/-- Method `position_amount`: the stored amount, or `0.0` when `symbol` is
not a key of `positions`. -/
def position_amount (b : PaperBroker) (symbol : String) : ℚ :=
  match lookupPos b.positions symbol with
  | none => 0
  | some p => p.amount

/-- Method `position_entry`: the stored entry price, or `0.0` when `symbol`
is not a key of `positions`. -/
def position_entry (b : PaperBroker) (symbol : String) : ℚ :=
  match lookupPos b.positions symbol with
  | none => 0
  | some p => p.entry_price

/-- Method `get_equity(prices)`: cash plus, for every position with positive
amount whose symbol appears in `prices`, `amount * prices[symbol]`. -/
def get_equity (b : PaperBroker) (prices : List (String × ℚ)) : ℚ :=
  b.positions.foldl
    (fun equity sp =>
      match lookupPrice prices sp.1 with
      | some pr => if (0 : ℚ) < sp.2.amount then equity + sp.2.amount * pr else equity
      | none => equity)
    b.cash

/-- Method `_buy(symbol, amount, price)`: returns the mutated broker together
with the Python return value.  Fails (no mutation) when `amount <= 0` or
`price <= 0`, when `has_position(symbol)` (one position per symbol), or when
`cost > cash`; otherwise deducts the cost and stores the position. -/
def _buy (b : PaperBroker) (symbol : String) (amount price : ℚ) : PaperBroker × Bool :=
  if amount ≤ 0 ∨ price ≤ 0 then (b, false)
  else if b.has_position symbol then (b, false)
  else if amount * price > b.cash then (b, false)   -- cost = amount * price
  else
    ({ b with
        cash := b.cash - amount * price
        positions := setPos b.positions symbol ⟨amount, price⟩ }, true)

/-- Method `_sell(symbol, amount, price)`: returns the mutated broker together
with the Python return value.  Fails (no mutation) when `amount <= 0` or
`price <= 0` or there is no position for `symbol`; otherwise credits
`min(amount, position_amount) * price` and overwrites the position with
`{"amount": 0.0, "entry_price": 0.0}` (the position is always closed fully,
even when the credited amount was clamped to the smaller requested amount). -/
def _sell (b : PaperBroker) (symbol : String) (amount price : ℚ) : PaperBroker × Bool :=
  if amount ≤ 0 ∨ price ≤ 0 then (b, false)
  else if ¬ b.has_position symbol then (b, false)
  else
    -- sell_amount = min(amount, position_amount); proceeds = sell_amount * price
    ({ b with
        cash := b.cash + min amount (b.position_amount symbol) * price
        positions := setPos b.positions symbol ⟨0, 0⟩ }, true)

end PaperBroker

section BrokerLemmas

/-- Unfolding lemma: a successful `_buy` happens exactly under the code's
three guards. -/
lemma buy_success_iff (b : PaperBroker) (symbol : String) (amount price : ℚ) :
    (b._buy symbol amount price).2 = true ↔
      (0 < amount ∧ 0 < price ∧ b.has_position symbol = false ∧ amount * price ≤ b.cash) := by
  unfold PaperBroker._buy
  by_cases h1 : amount ≤ 0 ∨ price ≤ 0
  · rw [if_pos h1]
    simp only [Bool.false_eq_true, false_iff]
    rintro ⟨ha, hp, -, -⟩
    rcases h1 with h | h <;> linarith
  · rw [if_neg h1]
    push_neg at h1
    by_cases h2 : b.has_position symbol = true
    · rw [if_pos h2]
      simp only [Bool.false_eq_true, false_iff]
      rintro ⟨-, -, hnp, -⟩
      rw [h2] at hnp
      simp at hnp
    · rw [if_neg h2]
      by_cases h3 : amount * price > b.cash
      · rw [if_pos h3]
        simp only [Bool.false_eq_true, false_iff]
        rintro ⟨-, -, -, hle⟩
        linarith
      · rw [if_neg h3]
        simp only [true_iff]
        exact ⟨h1.1, h1.2, Bool.not_eq_true _ ▸ h2, le_of_not_lt h3⟩

/-- State change of a successful `_buy`: cash decreases by the cost and the
position for `symbol` is overwritten with the bought one. -/
lemma buy_success_state (b : PaperBroker) (symbol : String) (amount price : ℚ)
    (h : (b._buy symbol amount price).2 = true) :
    (b._buy symbol amount price).1 =
      { b with
          cash := b.cash - amount * price
          positions := setPos b.positions symbol ⟨amount, price⟩ } := by
  obtain ⟨ha, hp, hnp, hle⟩ := (buy_success_iff b symbol amount price).mp h
  unfold PaperBroker._buy
  rw [if_neg (by push_neg; exact ⟨by linarith, by linarith⟩),
      if_neg (by simp [hnp]), if_neg (not_lt.mpr hle)]

/-- State change of a failed `_buy`: the broker is returned unchanged. -/
lemma buy_fail_state (b : PaperBroker) (symbol : String) (amount price : ℚ)
    (h : (b._buy symbol amount price).2 = false) :
    (b._buy symbol amount price).1 = b := by
  by_cases h1 : amount ≤ 0 ∨ price ≤ 0
  · unfold PaperBroker._buy
    rw [if_pos h1]
  · by_cases h2 : b.has_position symbol = true
    · unfold PaperBroker._buy
      rw [if_neg h1, if_pos h2]
    · by_cases h3 : amount * price > b.cash
      · unfold PaperBroker._buy
        rw [if_neg h1, if_neg h2, if_pos h3]
      · exfalso
        push_neg at h1
        have hs : (b._buy symbol amount price).2 = true :=
          (buy_success_iff b symbol amount price).mpr
            ⟨h1.1, h1.2, Bool.not_eq_true _ ▸ h2, le_of_not_lt h3⟩
        rw [h] at hs
        exact Bool.false_ne_true hs

/-- Unfolding lemma: a successful `_sell` happens exactly under the code's
two guards. -/
lemma sell_success_iff (b : PaperBroker) (symbol : String) (amount price : ℚ) :
    (b._sell symbol amount price).2 = true ↔
      (0 < amount ∧ 0 < price ∧ b.has_position symbol = true) := by
  unfold PaperBroker._sell
  by_cases h1 : amount ≤ 0 ∨ price ≤ 0
  · rw [if_pos h1]
    simp only [Bool.false_eq_true, false_iff]
    rintro ⟨ha, hp, -⟩
    rcases h1 with h | h <;> linarith
  · rw [if_neg h1]
    push_neg at h1
    by_cases h2 : b.has_position symbol = true
    · rw [if_neg (by simp [h2])]
      simp only [true_iff]
      exact ⟨h1.1, h1.2, h2⟩
    · rw [if_pos (by simpa using h2)]
      simp only [Bool.false_eq_true, false_iff]
      rintro ⟨-, -, hp⟩
      exact h2 hp

/-- State change of a successful `_sell`: cash increases by
`min(amount, position_amount) * price` and the position is zeroed out. -/
lemma sell_success_state (b : PaperBroker) (symbol : String) (amount price : ℚ)
    (h : (b._sell symbol amount price).2 = true) :
    (b._sell symbol amount price).1 =
      { b with
          cash := b.cash + min amount (b.position_amount symbol) * price
          positions := setPos b.positions symbol ⟨0, 0⟩ } := by
  obtain ⟨ha, hp, hpos⟩ := (sell_success_iff b symbol amount price).mp h
  unfold PaperBroker._sell
  rw [if_neg (by push_neg; exact ⟨by linarith, by linarith⟩), if_neg (by simp [hpos])]

/-- State change of a failed `_sell`: the broker is returned unchanged. -/
lemma sell_fail_state (b : PaperBroker) (symbol : String) (amount price : ℚ)
    (h : (b._sell symbol amount price).2 = false) :
    (b._sell symbol amount price).1 = b := by
  by_cases h1 : amount ≤ 0 ∨ price ≤ 0
  · unfold PaperBroker._sell
    rw [if_pos h1]
  · by_cases h2 : b.has_position symbol = true
    · exfalso
      push_neg at h1
      have hs : (b._sell symbol amount price).2 = true :=
        (sell_success_iff b symbol amount price).mpr ⟨h1.1, h1.2, h2⟩
      rw [h] at hs
      exact Bool.false_ne_true hs
    · unfold PaperBroker._sell
      rw [if_neg h1, if_pos (by simpa using h2)]

/-- A positive position amount is what `has_position` reports. -/
lemma has_position_iff_amount_pos (b : PaperBroker) (symbol : String) :
    b.has_position symbol = true ↔ 0 < b.position_amount symbol := by
  unfold PaperBroker.has_position PaperBroker.position_amount
  cases lookupPos b.positions symbol with
  | none => simp
  | some p => simp

end BrokerLemmas

/-- Dict assignment then lookup at the same key finds the new value. -/
lemma lookupPos_setPos_self (l : List (String × Position)) (symbol : String) (p : Position) :
    lookupPos (setPos l symbol p) symbol = some p := by
  induction l with
  | nil => simp [setPos, lookupPos]
  | cons hd tl ih =>
      obtain ⟨s, q⟩ := hd
      by_cases h : s = symbol
      · simp [setPos, lookupPos, h]
      · simp [setPos, lookupPos, h, ih]

/-- Dict assignment leaves every other key's binding unchanged. -/
lemma lookupPos_setPos_ne (l : List (String × Position)) (symbol s' : String) (p : Position)
    (h : s' ≠ symbol) :
    lookupPos (setPos l symbol p) s' = lookupPos l s' := by
  induction l with
  | nil => simp [setPos, lookupPos, Ne.symm h]
  | cons hd tl ih =>
      obtain ⟨s, q⟩ := hd
      by_cases hs : s = symbol
      · subst hs
        simp [setPos, lookupPos, Ne.symm h]
      · simp only [setPos, if_neg hs, lookupPos]
        by_cases hs' : s = s'
        · simp [hs']
        · simp [hs', ih]

/-- C1 counterexample: with a positive ETH position already held (cash 100),
`_buy("BTC", 1, 5)` succeeds — the code only blocks a buy when a position for
the SAME symbol exists — and afterwards both ETH and BTC positions are
simultaneously open, so the claimed across-symbols failure (and the claimed
structural impossibility of a second concurrent position) is false. -/
theorem C1_counterexample :
    ((⟨100, 100, [("ETH", ⟨1, 10⟩)]⟩ : PaperBroker).has_position "ETH" = true) ∧
    (((⟨100, 100, [("ETH", ⟨1, 10⟩)]⟩ : PaperBroker)._buy "BTC" 1 5).2 = true) ∧
    (((⟨100, 100, [("ETH", ⟨1, 10⟩)]⟩ : PaperBroker)._buy "BTC" 1 5).1.has_position "ETH" = true) ∧
    (((⟨100, 100, [("ETH", ⟨1, 10⟩)]⟩ : PaperBroker)._buy "BTC" 1 5).1.has_position "BTC" = true) := by
  have hEB : ("ETH" = "BTC") = False := by simp
  have hBE : ("BTC" = "ETH") = False := by simp
  refine ⟨?_, ?_, ?_, ?_⟩ <;>
    norm_num [PaperBroker._buy, PaperBroker.has_position, lookupPos, setPos, hEB, hBE]

/-- C1 (amended): `_buy` fails (returning the broker unchanged and `False`)
iff `amount ≤ 0`, `price ≤ 0`, a position for the SAME symbol being bought
exists, or the cost exceeds cash; otherwise it succeeds, deducts the cost,
stores the position for that symbol and leaves every other symbol's position
binding untouched (so a position on a different symbol does not block the
buy and survives it). -/
theorem C1_buy_characterization (b : PaperBroker) (symbol : String) (amount price : ℚ) :
    ((amount ≤ 0 ∨ price ≤ 0 ∨ b.has_position symbol = true ∨ amount * price > b.cash) →
      b._buy symbol amount price = (b, false)) ∧
    (0 < amount → 0 < price → b.has_position symbol = false → amount * price ≤ b.cash →
      (b._buy symbol amount price).2 = true ∧
      (b._buy symbol amount price).1.cash = b.cash - amount * price ∧
      lookupPos (b._buy symbol amount price).1.positions symbol = some ⟨amount, price⟩ ∧
      (∀ s', s' ≠ symbol →
        lookupPos (b._buy symbol amount price).1.positions s' = lookupPos b.positions s')) := by
  constructor
  · intro hfail
    have h2 : (b._buy symbol amount price).2 = false := by
      cases hres : (b._buy symbol amount price).2
      · rfl
      · exfalso
        obtain ⟨ha, hp, hnp, hle⟩ := (buy_success_iff b symbol amount price).mp hres
        rcases hfail with h | h | h | h
        · linarith
        · linarith
        · rw [hnp] at h
          simp at h
        · linarith
    have h1 := buy_fail_state b symbol amount price h2
    calc b._buy symbol amount price
        = ((b._buy symbol amount price).1, (b._buy symbol amount price).2) := rfl
      _ = (b, false) := by rw [h1, h2]
  · intro ha hp hnp hle
    have hs : (b._buy symbol amount price).2 = true :=
      (buy_success_iff b symbol amount price).mpr ⟨ha, hp, hnp, hle⟩
    have hst := buy_success_state b symbol amount price hs
    refine ⟨hs, ?_, ?_, ?_⟩
    · rw [hst]
    · rw [hst]
      exact lookupPos_setPos_self b.positions symbol ⟨amount, price⟩
    · intro s' hne
      rw [hst]
      exact lookupPos_setPos_ne b.positions symbol s' ⟨amount, price⟩ hne

/-- Witness for C1_buy_characterization at a concrete input: buying 2 units
at price 5 from a fresh broker with 100 cash succeeds. -/
theorem C1_buy_characterization_witness :
    ((PaperBroker.init 100)._buy "BTC" 2 5).2 = true :=
  ((C1_buy_characterization (PaperBroker.init 100) "BTC" 2 5).2
    (by norm_num) (by norm_num) rfl
    (by norm_num [PaperBroker.init])).1

/-- C2 counterexample: selling with a requested amount of 1 against an open
position of size 2 (entry 10) at price 5 succeeds, but credits only
`min(1, 2) * 5 = 5` — not the claimed `size_before * price = 10` — while the
position is nonetheless cleared to zero, so the requested size argument is
NOT ignored/clamped to the full position in the cash computation. -/
theorem C2_counterexample :
    (((⟨0, 0, [("BTC", ⟨2, 10⟩)]⟩ : PaperBroker)._sell "BTC" 1 5).2 = true) ∧
    (((⟨0, 0, [("BTC", ⟨2, 10⟩)]⟩ : PaperBroker)._sell "BTC" 1 5).1.cash = 5) ∧
    ((5 : ℚ) ≠ 0 + 2 * 5) ∧
    (((⟨0, 0, [("BTC", ⟨2, 10⟩)]⟩ : PaperBroker)._sell "BTC" 1 5).1.position_amount "BTC" = 0) := by
  refine ⟨?_, ?_, by norm_num, ?_⟩ <;>
    norm_num [PaperBroker._sell, PaperBroker.has_position, PaperBroker.position_amount,
      lookupPos, setPos]

/-- C2 (amended): `_sell(symbol, amount, price)` fails (broker unchanged)
iff `amount ≤ 0`, `price ≤ 0`, or no position exists for `symbol`.  On
success it credits `min(amount, position_amount) * price` and always clears
the position to exactly zero; in particular, whenever the requested amount
covers the whole position — as the engine's calls always do — cash increases
by exactly `position_amount * price` (the spec's full-close equation). -/
theorem C2_sell_characterization (b : PaperBroker) (symbol : String) (amount price : ℚ) :
    ((amount ≤ 0 ∨ price ≤ 0 ∨ b.has_position symbol = false) →
      b._sell symbol amount price = (b, false)) ∧
    (0 < amount → 0 < price → b.has_position symbol = true →
      (b._sell symbol amount price).2 = true ∧
      (b._sell symbol amount price).1.cash =
        b.cash + min amount (b.position_amount symbol) * price ∧
      (b._sell symbol amount price).1.position_amount symbol = 0 ∧
      (b.position_amount symbol ≤ amount →
        (b._sell symbol amount price).1.cash = b.cash + b.position_amount symbol * price)) := by
  constructor
  · intro hfail
    have h2 : (b._sell symbol amount price).2 = false := by
      cases hres : (b._sell symbol amount price).2
      · rfl
      · exfalso
        obtain ⟨ha, hp, hpos⟩ := (sell_success_iff b symbol amount price).mp hres
        rcases hfail with h | h | h
        · linarith
        · linarith
        · rw [hpos] at h
          simp at h
    have h1 := sell_fail_state b symbol amount price h2
    calc b._sell symbol amount price
        = ((b._sell symbol amount price).1, (b._sell symbol amount price).2) := rfl
      _ = (b, false) := by rw [h1, h2]
  · intro ha hp hpos
    have hs : (b._sell symbol amount price).2 = true :=
      (sell_success_iff b symbol amount price).mpr ⟨ha, hp, hpos⟩
    have hst := sell_success_state b symbol amount price hs
    refine ⟨hs, by rw [hst], ?_, ?_⟩
    · rw [hst]
      unfold PaperBroker.position_amount
      simp only
      rw [lookupPos_setPos_self]
    · intro hcov
      rw [hst]
      simp only
      rw [min_eq_right hcov]

/-- Witness for C2_sell_characterization at a concrete input: selling the
full position of 2 units (entry 10) at price 5 credits exactly 2 × 5. -/
theorem C2_sell_characterization_witness :
    ((⟨0, 0, [("BTC", ⟨2, 10⟩)]⟩ : PaperBroker)._sell "BTC" 2 5).1.cash =
      0 + (⟨0, 0, [("BTC", ⟨2, 10⟩)]⟩ : PaperBroker).position_amount "BTC" * 5 :=
  ((C2_sell_characterization (⟨0, 0, [("BTC", ⟨2, 10⟩)]⟩ : PaperBroker) "BTC" 2 5).2
    (by norm_num) (by norm_num)
    (by norm_num [PaperBroker.has_position, lookupPos])).2.2.2
    (by norm_num [PaperBroker.position_amount, lookupPos])

/-- C3 (confirmed): an executed buy satisfies the no-leverage bound
`amount × price ≤ cash_before` and leaves `cash_after ≥ 0`; an executed sell
keeps cash non-negative when it was; and a declined buy or sell leaves the
broker (cash and positions) entirely unchanged. -/
theorem C3_no_leverage_and_no_mutation_on_decline
    (b : PaperBroker) (symbol : String) (amount price : ℚ) :
    ((b._buy symbol amount price).2 = true →
      amount * price ≤ b.cash ∧ 0 ≤ (b._buy symbol amount price).1.cash) ∧
    (0 ≤ b.cash → (b._sell symbol amount price).2 = true →
      0 ≤ (b._sell symbol amount price).1.cash) ∧
    ((b._buy symbol amount price).2 = false → (b._buy symbol amount price).1 = b) ∧
    ((b._sell symbol amount price).2 = false → (b._sell symbol amount price).1 = b) := by
  refine ⟨?_, ?_, buy_fail_state b symbol amount price, sell_fail_state b symbol amount price⟩
  · intro hs
    obtain ⟨ha, hp, hnp, hle⟩ := (buy_success_iff b symbol amount price).mp hs
    refine ⟨hle, ?_⟩
    rw [buy_success_state b symbol amount price hs]
    simp only
    linarith
  · intro hcash hs
    obtain ⟨ha, hp, hpos⟩ := (sell_success_iff b symbol amount price).mp hs
    have hposamt : 0 < b.position_amount symbol :=
      (has_position_iff_amount_pos b symbol).mp hpos
    rw [sell_success_state b symbol amount price hs]
    simp only
    have hmin : 0 < min amount (b.position_amount symbol) := lt_min ha hposamt
    nlinarith

/-- Witness for C3 at a concrete input: buying 2 units at price 5 from a
fresh broker with 100 cash respects the no-leverage bound and leaves
non-negative cash. -/
theorem C3_no_leverage_witness :
    (2 : ℚ) * 5 ≤ (PaperBroker.init 100).cash ∧
      0 ≤ ((PaperBroker.init 100)._buy "BTC" 2 5).1.cash :=
  (C3_no_leverage_and_no_mutation_on_decline (PaperBroker.init 100) "BTC" 2 5).1
    (by norm_num [PaperBroker._buy, PaperBroker.has_position, PaperBroker.init, lookupPos])

/-- The module-level constants of `src/config.py` that the engine consumes.
Note the module exposes exactly these numeric/trading parameters (plus log
file names and data file paths, which are irrelevant to trading); there is
no minimum-warm-up-candle-count parameter. -/
structure Config where
  INITIAL_BALANCE : ℚ
  STOP_LOSS_PCT : ℚ
  TAKE_PROFIT_PCT : ℚ
  RISK_PER_TRADE_PCT : ℚ
  COOLDOWN_CANDLES : ℕ
  TREND_EMA_PERIOD : ℕ
deriving Repr, DecidableEq

/-- The literal values assigned in `src/config.py`. -/
def defaultConfig : Config :=
  ⟨10000, -1, 2, 1, 6, 200⟩

/-- An OHLCV candle dict as produced by `load_candles`. -/
structure Candle where
  timestamp : ℚ
  «open» : ℚ
  high : ℚ
  low : ℚ
  close : ℚ
  volume : ℚ
deriving Repr, DecidableEq

/-- The value of one call `strategy.on_candle(history, broker, symbol)`:
either a returned value (`none` embeds Python `None`; a returned string is
carried verbatim) or a raised exception. -/
inductive StratResult where
  | value : Option String → StratResult
  | exc : StratResult
deriving Repr, DecidableEq

/-- A Strategy object, seen through the engine's single call site: a function
of the candle history so far, the broker and the symbol. -/
def Strategy : Type :=
  List Candle → PaperBroker → String → StratResult

/-- Python's `str.upper()` restricted to ASCII content (all signal strings
involved are ASCII). -/
def pyUpper (s : String) : String :=
  ⟨s.data.map Char.toUpper⟩

/-- One row of `self.results` / the trade CSV, i.e. the dict appended by
`run_backtest` on an executed trade.  The extra `idx` field records the index
`i` of the `enumerate(candles)` loop at which the trade executed (the Python
dict determines it implicitly as the position of `timestamp` in the candle
list); it is carried as a ghost field so temporal claims can be stated. -/
structure TradeRecord where
  idx : ℕ
  timestamp : ℚ
  side : String      -- the "type" key: "BUY" or "SELL"
  symbol : String
  price : ℚ
  amount : ℚ
  balance_after : ℚ
  trigger : String   -- "STRATEGY", "STOP_LOSS" or "TAKE_PROFIT"
  pnl : ℚ
deriving Repr, DecidableEq

/-- The mutable state of `BacktestEngine` during `run_backtest`. -/
structure EngineState where
  broker : PaperBroker
  results : List TradeRecord
  equity_curve : List ℚ
  candles_since_last_sell : Option ℕ
  ema_value : Option ℚ
  last_buy_price : Option ℚ
deriving Repr, DecidableEq

/-- Method `_update_ema(close_price)`: `k = 2/(period+1)`; first call seeds
the EMA with the close, later calls blend `close*k + ema*(1-k)`. -/
def _update_ema (cfg : Config) (ema_value : Option ℚ) (close_price : ℚ) : ℚ :=
  match ema_value with
  | none => close_price
  | some e =>
      close_price * (2 / (cfg.TREND_EMA_PERIOD + 1)) +
        e * (1 - 2 / (cfg.TREND_EMA_PERIOD + 1))

/-- Method `_is_above_trend(price)`: false while the EMA is uninitialized,
else `price > ema`. -/
def _is_above_trend (ema_value : Option ℚ) (price : ℚ) : Bool :=
  match ema_value with
  | none => false
  | some e => decide (price > e)

/-- Method `_calculate_position_size(price)` (reads `self.broker.cash`):
risk-based size capped by affordability, 0 on non-positive price/cash. -/
def _calculate_position_size (cfg : Config) (broker_cash price : ℚ) : ℚ :=
  if price ≤ 0 ∨ broker_cash ≤ 0 then 0
  else if price * (|cfg.STOP_LOSS_PCT| / 100) ≤ 0 then 0   -- stop_distance
  else
    -- risk_amount / stop_distance, capped at max_affordable = cash / price
    min (broker_cash * (cfg.RISK_PER_TRADE_PCT / 100) / (price * (|cfg.STOP_LOSS_PCT| / 100)))
      (broker_cash / price)

/-- Method `_check_stop_loss_take_profit(symbol, current_price)`: `none`
without an open position or with non-positive entry; otherwise classify
`pnl_pct = (price - entry)/entry * 100` against the thresholds. -/
def _check_stop_loss_take_profit (cfg : Config) (broker : PaperBroker)
    (symbol : String) (current_price : ℚ) : Option String :=
  if ¬ broker.has_position symbol then none
  else if broker.position_entry symbol ≤ 0 then none
  else
    if ((current_price - broker.position_entry symbol) / broker.position_entry symbol) * 100
        ≤ cfg.STOP_LOSS_PCT then some "STOP_LOSS"
    else if ((current_price - broker.position_entry symbol) / broker.position_entry symbol) * 100
        ≥ cfg.TAKE_PROFIT_PCT then some "TAKE_PROFIT"
    else none

/-- The PnL expression of the engine's sell branches:
`(price - self.last_buy_price) * amount if self.last_buy_price else 0`
(Python truthiness: both `None` and `0.0` fall to the `else`). -/
def tradePnl (last_buy_price : Option ℚ) (price amount : ℚ) : ℚ :=
  match last_buy_price with
  | none => 0
  | some lbp => if lbp = 0 then 0 else (price - lbp) * amount

/-- The cooldown counter update at the top of each loop iteration:
`if self.candles_since_last_sell is not None: self.candles_since_last_sell += 1`. -/
def bumpCooldown : Option ℕ → Option ℕ
  | none => none
  | some k => some (k + 1)

/-- The per-candle state updates that happen before any trading decision:
EMA update from the previous close (only when `i > 0`), equity recording at
the candle's open, and the cooldown bump. -/
def stepPre (cfg : Config) (symbol : String) (i : ℕ) (candle : Candle)
    (prev_close : Option ℚ) (st : EngineState) : EngineState :=
  { st with
      ema_value :=
        if i = 0 then st.ema_value
        else
          match prev_close with
          | some c => some (_update_ema cfg st.ema_value c)
          | none => st.ema_value
      equity_curve :=
        st.equity_curve ++ [st.broker.get_equity [(symbol, candle.«open»)]]
      candles_since_last_sell := bumpCooldown st.candles_since_last_sell }

/-- The common sell block of the engine (used by the stop-loss/take-profit
branch and the strategy-SELL branch, which differ only in the `trigger`
recorded): sell the whole `position_amount` at the candle open; on an
executed sell append the trade record, clear `last_buy_price` and reset the
cooldown counter to 0; otherwise leave the state unchanged. -/
def execSell (i : ℕ) (ts : ℚ) (symbol : String) (price : ℚ) (trig : String)
    (st : EngineState) : EngineState :=
  if 0 < st.broker.position_amount symbol ∧
      (st.broker._sell symbol (st.broker.position_amount symbol) price).2 = true then
    { st with
        broker := (st.broker._sell symbol (st.broker.position_amount symbol) price).1
        results := st.results ++
          [⟨i, ts, "SELL", symbol, price, st.broker.position_amount symbol,
            (st.broker._sell symbol (st.broker.position_amount symbol) price).1.get_equity
              [(symbol, price)],
            trig, tradePnl st.last_buy_price price (st.broker.position_amount symbol)⟩]
        last_buy_price := none
        candles_since_last_sell := some 0 }
  else st

/-- The BUY branch of the engine: blocked by an existing position, an active
cooldown (`counter is not None and counter < COOLDOWN_CANDLES`), the trend
filter, non-positive cash or a non-positive computed size; otherwise executes
`_buy` and on success appends the trade record and sets `last_buy_price`. -/
def execBuy (cfg : Config) (i : ℕ) (ts : ℚ) (symbol : String) (price : ℚ)
    (st : EngineState) : EngineState :=
  if st.broker.has_position symbol then st
  else if (match st.candles_since_last_sell with
           | some k => decide (k < cfg.COOLDOWN_CANDLES)
           | none => false) = true then st
  else if ¬ _is_above_trend st.ema_value price then st
  else if st.broker.cash ≤ 0 then st
  else if _calculate_position_size cfg st.broker.cash price ≤ 0 then st
  else
    if (st.broker._buy symbol (_calculate_position_size cfg st.broker.cash price) price).2 = true
    then
      { st with
          broker := (st.broker._buy symbol
            (_calculate_position_size cfg st.broker.cash price) price).1
          results := st.results ++
            [⟨i, ts, "BUY", symbol, price, _calculate_position_size cfg st.broker.cash price,
              (st.broker._buy symbol
                (_calculate_position_size cfg st.broker.cash price) price).1.get_equity
                [(symbol, price)],
              "STRATEGY", 0⟩]
          last_buy_price := some price }
    else st

/-- One iteration of the `for i, candle in enumerate(candles)` loop of
`run_backtest`.  `history` is the list the engine has appended the current
candle to; `prev_close` is `candles[i-1]["close"]` when `i > 0`.  Returns
`none` when the iteration raises (the strategy call raised and nothing in the
loop catches it — the exception propagates out of `run_backtest`). -/
def engineStep (cfg : Config) (strategy : Strategy) (symbol : String) (i : ℕ)
    (candle : Candle) (prev_close : Option ℚ) (history : List Candle)
    (st : EngineState) : Option EngineState :=
  match _check_stop_loss_take_profit cfg (stepPre cfg symbol i candle prev_close st).broker
      symbol candle.«open» with
  | some trig =>
      -- risk exit: sell and `continue` — the strategy is not consulted
      some (execSell i candle.timestamp symbol candle.«open» trig
        (stepPre cfg symbol i candle prev_close st))
  | none =>
      match strategy history (stepPre cfg symbol i candle prev_close st).broker symbol with
      | .exc => none
      | .value v =>
          -- `if signal: signal = signal.upper()` — None and "" stay un-uppercased
          match (match v with
                 | none => none
                 | some s => if s = "" then some s else some (pyUpper s) : Option String) with
          | some "BUY" =>
              some (execBuy cfg i candle.timestamp symbol candle.«open»
                (stepPre cfg symbol i candle prev_close st))
          | some "SELL" =>
              -- `if not has_position: continue; if amount <= 0: continue`
              if ¬ (stepPre cfg symbol i candle prev_close st).broker.has_position symbol then
                some (stepPre cfg symbol i candle prev_close st)
              else if (stepPre cfg symbol i candle prev_close st).broker.position_amount symbol
                  ≤ 0 then
                some (stepPre cfg symbol i candle prev_close st)
              else
                some (execSell i candle.timestamp symbol candle.«open» "STRATEGY"
                  (stepPre cfg symbol i candle prev_close st))
          | _ => some (stepPre cfg symbol i candle prev_close st)

/-- The candle loop of `run_backtest`: thread the loop index, the previous
close and the growing history through `engineStep`; a raised exception
(`none`) aborts the whole run. -/
def runAux (cfg : Config) (strategy : Strategy) (symbol : String) :
    ℕ → Option ℚ → List Candle → List Candle → EngineState → Option EngineState
  | _, _, _, [], st => some st
  | i, prev_close, history, candle :: rest, st =>
      match engineStep cfg strategy symbol i candle prev_close (history ++ [candle]) st with
      | none => none
      | some st' =>
          runAux cfg strategy symbol (i + 1) (some candle.close) (history ++ [candle]) rest st'

/-- The engine state freshly initialized at the top of `run_backtest`. -/
def initState (cfg : Config) : EngineState :=
  ⟨PaperBroker.init cfg.INITIAL_BALANCE, [], [], none, none, none⟩

/-- Method `run_backtest(strategy, candles, symbol)` (its trading semantics:
the CSV/stdout logging is ignored).  `none` embeds a run aborted by an
uncaught strategy exception; `some st` is the final engine state, whose
`results` field is the method's return value. -/
def run_backtest (cfg : Config) (strategy : Strategy) (candles : List Candle)
    (symbol : String) : Option EngineState :=
  runAux cfg strategy symbol 0 none [] candles (initState cfg)

/-- stepPre touches only ema, equity curve and cooldown: broker unchanged. -/
lemma stepPre_broker (cfg : Config) (symbol : String) (i : ℕ) (candle : Candle)
    (prev_close : Option ℚ) (st : EngineState) :
    (stepPre cfg symbol i candle prev_close st).broker = st.broker := rfl

/-- stepPre leaves the results list unchanged. -/
lemma stepPre_results (cfg : Config) (symbol : String) (i : ℕ) (candle : Candle)
    (prev_close : Option ℚ) (st : EngineState) :
    (stepPre cfg symbol i candle prev_close st).results = st.results := rfl

/-- stepPre leaves last_buy_price unchanged. -/
lemma stepPre_last_buy (cfg : Config) (symbol : String) (i : ℕ) (candle : Candle)
    (prev_close : Option ℚ) (st : EngineState) :
    (stepPre cfg symbol i candle prev_close st).last_buy_price = st.last_buy_price := rfl

/-- stepPre bumps the cooldown counter. -/
lemma stepPre_cooldown (cfg : Config) (symbol : String) (i : ℕ) (candle : Candle)
    (prev_close : Option ℚ) (st : EngineState) :
    (stepPre cfg symbol i candle prev_close st).candles_since_last_sell =
      bumpCooldown st.candles_since_last_sell := rfl

/-- stepPre appends exactly one equity sample, taken at the candle open. -/
lemma stepPre_equity (cfg : Config) (symbol : String) (i : ℕ) (candle : Candle)
    (prev_close : Option ℚ) (st : EngineState) :
    (stepPre cfg symbol i candle prev_close st).equity_curve =
      st.equity_curve ++ [st.broker.get_equity [(symbol, candle.«open»)]] := rfl

/-- With an open position of positive entry price, the stop-loss/take-profit
check reduces to the two threshold comparisons on `pnl_pct` (stop loss tested
first). -/
lemma check_sl_tp_open (cfg : Config) (b : PaperBroker) (symbol : String) (price : ℚ)
    (hpos : b.has_position symbol = true) (hentry : 0 < b.position_entry symbol) :
    _check_stop_loss_take_profit cfg b symbol price =
      (if (price - b.position_entry symbol) / b.position_entry symbol * 100
          ≤ cfg.STOP_LOSS_PCT then some "STOP_LOSS"
       else if cfg.TAKE_PROFIT_PCT ≤
          (price - b.position_entry symbol) / b.position_entry symbol * 100
       then some "TAKE_PROFIT"
       else none) := by
  unfold _check_stop_loss_take_profit
  rw [if_neg (by simp [hpos]), if_neg (not_le.mpr hentry)]

/-- When a position is open and the price is positive, the engine's sell
block executes: it sells the whole position and appends the trade record. -/
lemma execSell_executes (i : ℕ) (ts : ℚ) (symbol : String) (price : ℚ) (trig : String)
    (st : EngineState) (hpos : st.broker.has_position symbol = true) (hprice : 0 < price) :
    execSell i ts symbol price trig st =
      { st with
          broker := (st.broker._sell symbol (st.broker.position_amount symbol) price).1
          results := st.results ++
            [⟨i, ts, "SELL", symbol, price, st.broker.position_amount symbol,
              (st.broker._sell symbol (st.broker.position_amount symbol) price).1.get_equity
                [(symbol, price)],
              trig, tradePnl st.last_buy_price price (st.broker.position_amount symbol)⟩]
          last_buy_price := none
          candles_since_last_sell := some 0 } := by
  unfold execSell
  rw [if_pos]
  exact ⟨(has_position_iff_amount_pos _ _).mp hpos,
    (sell_success_iff _ _ _ _).mpr ⟨(has_position_iff_amount_pos _ _).mp hpos, hprice, hpos⟩⟩

/-- C4 (confirmed): on a step with an open position (positive entry price,
positive candle open price) and negative stop-loss / positive take-profit
thresholds, the engine classifies `pnl_pct = (open - entry)/entry × 100`
BEFORE consulting the strategy: at or below the stop loss it executes a sell
recorded with trigger STOP_LOSS, at or above the take profit a sell with
trigger TAKE_PROFIT, and in either case the step's outcome is identical for
every pair of strategies — the strategy is not consulted, so the recorded
trigger is never STRATEGY on such a step. -/
theorem C4_risk_exit_priority (cfg : Config) (strat strat2 : Strategy) (symbol : String)
    (i : ℕ) (candle : Candle) (prev_close : Option ℚ) (history : List Candle)
    (st : EngineState)
    (hSL : cfg.STOP_LOSS_PCT < 0) (hTP : 0 < cfg.TAKE_PROFIT_PCT)
    (hpos : st.broker.has_position symbol = true)
    (hentry : 0 < st.broker.position_entry symbol)
    (hprice : 0 < candle.«open») :
    ((candle.«open» - st.broker.position_entry symbol) / st.broker.position_entry symbol * 100
        ≤ cfg.STOP_LOSS_PCT →
      ∃ st' r, engineStep cfg strat symbol i candle prev_close history st = some st' ∧
        st'.results = st.results ++ [r] ∧ r.side = "SELL" ∧ r.trigger = "STOP_LOSS" ∧
        r.idx = i) ∧
    (cfg.TAKE_PROFIT_PCT ≤
        (candle.«open» - st.broker.position_entry symbol) / st.broker.position_entry symbol
          * 100 →
      ∃ st' r, engineStep cfg strat symbol i candle prev_close history st = some st' ∧
        st'.results = st.results ++ [r] ∧ r.side = "SELL" ∧ r.trigger = "TAKE_PROFIT" ∧
        r.idx = i) ∧
    (((candle.«open» - st.broker.position_entry symbol) / st.broker.position_entry symbol * 100
        ≤ cfg.STOP_LOSS_PCT ∨
      cfg.TAKE_PROFIT_PCT ≤
        (candle.«open» - st.broker.position_entry symbol) / st.broker.position_entry symbol
          * 100) →
      engineStep cfg strat symbol i candle prev_close history st =
        engineStep cfg strat2 symbol i candle prev_close history st) := by
  have hpos1 : (stepPre cfg symbol i candle prev_close st).broker.has_position symbol = true := by
    rw [stepPre_broker]; exact hpos
  have hentry1 : 0 < (stepPre cfg symbol i candle prev_close st).broker.position_entry symbol := by
    rw [stepPre_broker]; exact hentry
  have hcheck := check_sl_tp_open cfg st.broker symbol candle.«open» hpos hentry
  refine ⟨?_, ?_, ?_⟩
  · intro hsl
    have hstep : engineStep cfg strat symbol i candle prev_close history st =
        some (execSell i candle.timestamp symbol candle.«open» "STOP_LOSS"
          (stepPre cfg symbol i candle prev_close st)) := by
      unfold engineStep
      rw [stepPre_broker, hcheck, if_pos hsl]
    rw [execSell_executes i candle.timestamp symbol candle.«open» "STOP_LOSS"
        (stepPre cfg symbol i candle prev_close st) hpos1 hprice] at hstep
    simp only [stepPre_results, stepPre_broker, stepPre_last_buy] at hstep
    exact ⟨_, _, hstep, rfl, rfl, rfl, rfl⟩
  · intro htp
    have hnsl : ¬ ((candle.«open» - st.broker.position_entry symbol) /
        st.broker.position_entry symbol * 100 ≤ cfg.STOP_LOSS_PCT) := by
      push_neg
      calc cfg.STOP_LOSS_PCT < 0 := hSL
        _ < cfg.TAKE_PROFIT_PCT := hTP
        _ ≤ _ := htp
    have hstep : engineStep cfg strat symbol i candle prev_close history st =
        some (execSell i candle.timestamp symbol candle.«open» "TAKE_PROFIT"
          (stepPre cfg symbol i candle prev_close st)) := by
      unfold engineStep
      rw [stepPre_broker, hcheck, if_neg hnsl, if_pos htp]
    rw [execSell_executes i candle.timestamp symbol candle.«open» "TAKE_PROFIT"
        (stepPre cfg symbol i candle prev_close st) hpos1 hprice] at hstep
    simp only [stepPre_results, stepPre_broker, stepPre_last_buy] at hstep
    exact ⟨_, _, hstep, rfl, rfl, rfl, rfl⟩
  · intro hor
    have htrig : ∃ trig, _check_stop_loss_take_profit cfg
        st.broker symbol candle.«open» = some trig := by
      rw [hcheck]
      rcases hor with h | h
      · exact ⟨"STOP_LOSS", by rw [if_pos h]⟩
      · by_cases hsl : (candle.«open» - st.broker.position_entry symbol) /
            st.broker.position_entry symbol * 100 ≤ cfg.STOP_LOSS_PCT
        · exact ⟨"STOP_LOSS", by rw [if_pos hsl]⟩
        · exact ⟨"TAKE_PROFIT", by rw [if_neg hsl, if_pos h]⟩
    obtain ⟨trig, htrig⟩ := htrig
    unfold engineStep
    rw [stepPre_broker, htrig]

/-- Witness for C4 at a concrete input: position of 1 unit at entry 100,
candle open 50 (pnl −50% ≤ −1%), default configuration: the step executes a
STOP_LOSS sell for any strategy. -/
theorem C4_risk_exit_priority_witness :
    ∃ st' r,
      engineStep defaultConfig (fun _ _ _ => .value none) "BTC" 7
          ⟨9, 50, 50, 50, 50, 0⟩ (some 50) []
          ⟨⟨100, 0, [("BTC", ⟨1, 100⟩)]⟩, [], [], none, none, some 100⟩ = some st' ∧
        st'.results = [] ++ [r] ∧ r.side = "SELL" ∧ r.trigger = "STOP_LOSS" ∧ r.idx = 7 :=
  (C4_risk_exit_priority defaultConfig (fun _ _ _ => .value none) (fun _ _ _ => .exc) "BTC" 7
      ⟨9, 50, 50, 50, 50, 0⟩ (some 50) []
      ⟨⟨100, 0, [("BTC", ⟨1, 100⟩)]⟩, [], [], none, none, some 100⟩
      (by norm_num [defaultConfig]) (by norm_num [defaultConfig])
      (by norm_num [PaperBroker.has_position, lookupPos])
      (by norm_num [PaperBroker.position_entry, lookupPos])
      (by norm_num)).1
    (by norm_num [PaperBroker.position_entry, lookupPos, defaultConfig])

/-- Outcome of the engine's sell block: either nothing happened, or the whole
position was sold, with the trade record appended and the cooldown reset. -/
lemma execSell_spec (i : ℕ) (ts : ℚ) (symbol : String) (price : ℚ) (trig : String)
    (st : EngineState) :
    execSell i ts symbol price trig st = st ∨
    (∃ amt, 0 < amt ∧ (st.broker._sell symbol amt price).2 = true ∧
      execSell i ts symbol price trig st =
        { st with
            broker := (st.broker._sell symbol amt price).1
            results := st.results ++
              [⟨i, ts, "SELL", symbol, price, amt,
                (st.broker._sell symbol amt price).1.get_equity [(symbol, price)], trig,
                tradePnl st.last_buy_price price amt⟩]
            last_buy_price := none
            candles_since_last_sell := some 0 }) := by
  unfold execSell
  split
  · next h => exact Or.inr ⟨st.broker.position_amount symbol, h.1, h.2, rfl⟩
  · exact Or.inl rfl

/-- The engine's cooldown guard, when it does NOT block, means the counter is
inactive or has reached the configured length. -/
lemma cooldown_guard_false (cfg : Config) (o : Option ℕ)
    (h : ¬ ((match o with
             | some k => decide (k < cfg.COOLDOWN_CANDLES)
             | none => false) = true)) :
    o = none ∨ ∃ k, o = some k ∧ cfg.COOLDOWN_CANDLES ≤ k := by
  cases o with
  | none => exact Or.inl rfl
  | some k =>
      refine Or.inr ⟨k, rfl, ?_⟩
      by_contra hlt
      exact h (by simpa using Nat.lt_of_not_le hlt)

/-- Outcome of the engine's BUY branch: either nothing happened, or a buy
executed; in the latter case the cooldown guard must have passed (counter
inactive or at least the configured length) and the cooldown counter itself
is not modified. -/
lemma execBuy_spec (cfg : Config) (i : ℕ) (ts : ℚ) (symbol : String) (price : ℚ)
    (st : EngineState) :
    execBuy cfg i ts symbol price st = st ∨
    (∃ amt, (st.broker._buy symbol amt price).2 = true ∧
      _is_above_trend st.ema_value price = true ∧
      (st.candles_since_last_sell = none ∨
        ∃ k, st.candles_since_last_sell = some k ∧ cfg.COOLDOWN_CANDLES ≤ k) ∧
      execBuy cfg i ts symbol price st =
        { st with
            broker := (st.broker._buy symbol amt price).1
            results := st.results ++
              [⟨i, ts, "BUY", symbol, price, amt,
                (st.broker._buy symbol amt price).1.get_equity [(symbol, price)],
                "STRATEGY", 0⟩]
            last_buy_price := some price }) := by
  unfold execBuy
  split
  · exact Or.inl rfl
  · split
    · exact Or.inl rfl
    · next hcool =>
        split
        · exact Or.inl rfl
        · next htr =>
            split
            · exact Or.inl rfl
            · split
              · exact Or.inl rfl
              · split
                · next hok =>
                    exact Or.inr ⟨_, hok, not_not.mp htr,
                      cooldown_guard_false cfg _ hcool, rfl⟩
                · exact Or.inl rfl

/-- A non-aborted engine step lands in one of three shapes: the pre-updated
state unchanged, the sell block applied to it, or the buy block applied to
it. -/
lemma engineStep_cases (cfg : Config) (strat : Strategy) (symbol : String) (i : ℕ)
    (candle : Candle) (prev_close : Option ℚ) (history : List Candle)
    (st st' : EngineState)
    (h : engineStep cfg strat symbol i candle prev_close history st = some st') :
    st' = stepPre cfg symbol i candle prev_close st ∨
    (∃ trig, st' = execSell i candle.timestamp symbol candle.«open» trig
      (stepPre cfg symbol i candle prev_close st)) ∨
    st' = execBuy cfg i candle.timestamp symbol candle.«open»
      (stepPre cfg symbol i candle prev_close st) := by
  unfold engineStep at h
  split at h
  · exact Or.inr (Or.inl ⟨_, (Option.some_injective _ h).symm⟩)
  · split at h
    · exact absurd h (by simp)
    · split at h
      · exact Or.inr (Or.inr (Option.some_injective _ h).symm)
      · split at h
        · exact Or.inl (Option.some_injective _ h).symm
        · split at h
          · exact Or.inl (Option.some_injective _ h).symm
          · exact Or.inr (Or.inl ⟨_, (Option.some_injective _ h).symm⟩)
      · exact Or.inl (Option.some_injective _ h).symm

/-- Invariant of the candle loop tying the cooldown counter to the trade
records.  `i` is the number of already-processed candles.  It says: every
recorded trade happened at an earlier index; an inactive counter means no
sell has executed; an active counter `some k` identifies the last executed
sell as the one at index `i - 1 - k` (stated additively); and every recorded
BUY is at least `COOLDOWN_CANDLES` steps after every earlier recorded SELL. -/
def CooldownInv (C : ℕ) (i : ℕ) (st : EngineState) : Prop :=
  (∀ r ∈ st.results, r.idx < i) ∧
  (st.candles_since_last_sell = none → ∀ r ∈ st.results, r.side ≠ "SELL") ∧
  (∀ k, st.candles_since_last_sell = some k →
    ∃ s, s + k + 1 = i ∧ (∃ r ∈ st.results, r.side = "SELL" ∧ r.idx = s) ∧
      (∀ r ∈ st.results, r.side = "SELL" → r.idx ≤ s)) ∧
  (∀ r1 ∈ st.results, ∀ r2 ∈ st.results,
    r1.side = "SELL" → r2.side = "BUY" → r1.idx < r2.idx → C + r1.idx ≤ r2.idx)

/-- A step that appends no trade and bumps the counter preserves the loop
invariant. -/
lemma cooldownInv_bump (C i : ℕ) (st st' : EngineState)
    (hres : st'.results = st.results)
    (hcool : st'.candles_since_last_sell = bumpCooldown st.candles_since_last_sell)
    (hinv : CooldownInv C i st) :
    CooldownInv C (i + 1) st' := by
  obtain ⟨hidx, hnone, hsome, hpairs⟩ := hinv
  refine ⟨?_, ?_, ?_, ?_⟩
  · intro r hr
    rw [hres] at hr
    exact Nat.lt_succ_of_lt (hidx r hr)
  · intro hn r hr
    rw [hres] at hr
    rw [hcool] at hn
    cases ho : st.candles_since_last_sell with
    | none => exact hnone ho r hr
    | some k => rw [ho] at hn; simp [bumpCooldown] at hn
  · intro k hk
    rw [hcool] at hk
    cases ho : st.candles_since_last_sell with
    | none => rw [ho] at hk; simp [bumpCooldown] at hk
    | some k0 =>
        rw [ho] at hk
        simp only [bumpCooldown] at hk
        obtain ⟨s, hsum, hex, hmax⟩ := hsome k0 ho
        obtain rfl : k = k0 + 1 := (Option.some_injective _ hk).symm
        refine ⟨s, by omega, ?_, ?_⟩
        · rw [hres]; exact hex
        · intro r hr; rw [hres] at hr; exact hmax r hr
  · intro r1 hr1 r2 hr2
    rw [hres] at hr1 hr2
    exact hpairs r1 hr1 r2 hr2

/-- A step that executes a sell at index `i` (appending its record and
resetting the counter to 0) preserves the loop invariant. -/
lemma cooldownInv_sell (C i : ℕ) (st st' : EngineState) (r : TradeRecord)
    (hres : st'.results = st.results ++ [r])
    (hside : r.side = "SELL") (hidxr : r.idx = i)
    (hcool : st'.candles_since_last_sell = some 0)
    (hinv : CooldownInv C i st) :
    CooldownInv C (i + 1) st' := by
  obtain ⟨hidx, hnone, hsome, hpairs⟩ := hinv
  refine ⟨?_, ?_, ?_, ?_⟩
  · intro q hq
    rw [hres] at hq
    rcases List.mem_append.mp hq with h | h
    · exact Nat.lt_succ_of_lt (hidx q h)
    · rw [List.mem_singleton.mp h, hidxr]
      exact Nat.lt_succ_self i
  · intro hn
    rw [hcool] at hn
    simp at hn
  · intro k hk
    rw [hcool] at hk
    obtain rfl : k = 0 := (Option.some_injective _ hk.symm)
    refine ⟨i, by omega, ⟨r, by rw [hres]; exact List.mem_append_right _ (List.mem_singleton_self r), hside, hidxr⟩, ?_⟩
    intro q hq hqs
    rw [hres] at hq
    rcases List.mem_append.mp hq with h | h
    · exact Nat.le_of_lt (hidx q h)
    · rw [List.mem_singleton.mp h, hidxr]
  · intro r1 hr1 r2 hr2 h1s h2b hlt
    rw [hres] at hr1 hr2
    rcases List.mem_append.mp hr1 with h1 | h1
    · rcases List.mem_append.mp hr2 with h2 | h2
      · exact hpairs r1 h1 r2 h2 h1s h2b hlt
      · rw [List.mem_singleton.mp h2, hside] at h2b
        simp at h2b
    · rcases List.mem_append.mp hr2 with h2 | h2
      · rw [List.mem_singleton.mp h1, hidxr] at hlt
        exact absurd (hidx r2 h2) (by omega)
      · rw [List.mem_singleton.mp h2, hside] at h2b
        simp at h2b

/-- A step that executes a buy at index `i` under a passed cooldown guard
(counter inactive, or active at least `C` after this step's bump) preserves
the loop invariant. -/
lemma cooldownInv_buy (C i : ℕ) (st st' : EngineState) (r : TradeRecord)
    (hres : st'.results = st.results ++ [r])
    (hside : r.side = "BUY") (hidxr : r.idx = i)
    (hcool : st'.candles_since_last_sell = bumpCooldown st.candles_since_last_sell)
    (hguard : bumpCooldown st.candles_since_last_sell = none ∨
      ∃ k, bumpCooldown st.candles_since_last_sell = some k ∧ C ≤ k)
    (hinv : CooldownInv C i st) :
    CooldownInv C (i + 1) st' := by
  obtain ⟨hidx, hnone, hsome, hpairs⟩ := hinv
  refine ⟨?_, ?_, ?_, ?_⟩
  · intro q hq
    rw [hres] at hq
    rcases List.mem_append.mp hq with h | h
    · exact Nat.lt_succ_of_lt (hidx q h)
    · rw [List.mem_singleton.mp h, hidxr]
      exact Nat.lt_succ_self i
  · intro hn q hq
    rw [hcool] at hn
    rw [hres] at hq
    have hst : st.candles_since_last_sell = none := by
      cases ho : st.candles_since_last_sell with
      | none => rfl
      | some k => rw [ho] at hn; simp [bumpCooldown] at hn
    rcases List.mem_append.mp hq with h | h
    · exact hnone hst q h
    · rw [List.mem_singleton.mp h, hside]
      simp
  · intro k hk
    rw [hcool] at hk
    cases ho : st.candles_since_last_sell with
    | none => rw [ho] at hk; simp [bumpCooldown] at hk
    | some k0 =>
        rw [ho] at hk
        simp only [bumpCooldown] at hk
        obtain ⟨s, hsum, ⟨q, hq, hqs, hqi⟩, hmax⟩ := hsome k0 ho
        obtain rfl : k = k0 + 1 := (Option.some_injective _ hk).symm
        refine ⟨s, by omega, ⟨q, by rw [hres]; exact List.mem_append_left _ hq, hqs, hqi⟩, ?_⟩
        intro p hp hps
        rw [hres] at hp
        rcases List.mem_append.mp hp with h | h
        · exact hmax p h hps
        · rw [List.mem_singleton.mp h, hside] at hps
          simp at hps
  · intro r1 hr1 r2 hr2 h1s h2b hlt
    rw [hres] at hr1 hr2
    rcases List.mem_append.mp hr1 with h1 | h1
    · rcases List.mem_append.mp hr2 with h2 | h2
      · exact hpairs r1 h1 r2 h2 h1s h2b hlt
      · -- r2 is the new BUY at index i; r1 is an earlier SELL
        rw [List.mem_singleton.mp h2, hidxr]
        rcases hguard with hg | ⟨k, hg, hCk⟩
        · -- counter inactive: no sell can be recorded
          have hst : st.candles_since_last_sell = none := by
            cases ho : st.candles_since_last_sell with
            | none => rfl
            | some k => rw [ho] at hg; simp [bumpCooldown] at hg
          exact absurd h1s (hnone hst r1 h1)
        · -- counter active at k = i - s after the bump, with C ≤ k
          cases ho : st.candles_since_last_sell with
          | none => rw [ho] at hg; simp [bumpCooldown] at hg
          | some k0 =>
              rw [ho] at hg
              simp only [bumpCooldown] at hg
              obtain rfl : k = k0 + 1 := (Option.some_injective _ hg).symm
              obtain ⟨s, hsum, hex, hmax⟩ := hsome k0 ho
              have hr1s : r1.idx ≤ s := hmax r1 h1 h1s
              omega
    · rw [List.mem_singleton.mp h1, hside] at h1s
      simp at h1s

/-- One non-aborted engine step preserves the cooldown loop invariant. -/
lemma cooldownInv_step (cfg : Config) (strat : Strategy) (symbol : String) (i : ℕ)
    (candle : Candle) (prev_close : Option ℚ) (history : List Candle) (st st' : EngineState)
    (h : engineStep cfg strat symbol i candle prev_close history st = some st')
    (hinv : CooldownInv cfg.COOLDOWN_CANDLES i st) :
    CooldownInv cfg.COOLDOWN_CANDLES (i + 1) st' := by
  rcases engineStep_cases cfg strat symbol i candle prev_close history st st' h with
    h1 | ⟨trig, h1⟩ | h1
  · subst h1
    exact cooldownInv_bump _ i st _ rfl rfl hinv
  · rcases execSell_spec i candle.timestamp symbol candle.«open» trig
        (stepPre cfg symbol i candle prev_close st) with he | ⟨amt, hpos, hok, he⟩
    · rw [he] at h1
      subst h1
      exact cooldownInv_bump _ i st _ rfl rfl hinv
    · rw [he] at h1
      subst h1
      exact cooldownInv_sell _ i st _ _ rfl rfl rfl rfl hinv
  · rcases execBuy_spec cfg i candle.timestamp symbol candle.«open»
        (stepPre cfg symbol i candle prev_close st) with he | ⟨amt, hok, htrend, hguard, he⟩
    · rw [he] at h1
      subst h1
      exact cooldownInv_bump _ i st _ rfl rfl hinv
    · rw [stepPre_cooldown] at hguard
      rw [he] at h1
      subst h1
      exact cooldownInv_buy _ i st _ _ rfl rfl rfl rfl hguard hinv

/-- The whole candle loop preserves the cooldown invariant, advancing the
processed-candle count by the number of candles consumed. -/
lemma runAux_cooldownInv (cfg : Config) (strat : Strategy) (symbol : String)
    (candles : List Candle) :
    ∀ (i : ℕ) (prev_close : Option ℚ) (history : List Candle) (st st' : EngineState),
      runAux cfg strat symbol i prev_close history candles st = some st' →
      CooldownInv cfg.COOLDOWN_CANDLES i st →
      CooldownInv cfg.COOLDOWN_CANDLES (i + candles.length) st' := by
  induction candles with
  | nil =>
      intro i pc hist st st' hrun hinv
      simp only [runAux] at hrun
      obtain rfl := Option.some_injective _ hrun
      simpa using hinv
  | cons c rest ih =>
      intro i pc hist st st' hrun hinv
      simp only [runAux] at hrun
      cases hstep : engineStep cfg strat symbol i c pc (hist ++ [c]) st with
      | none =>
          rw [hstep] at hrun
          exact absurd hrun (by simp)
      | some st1 =>
          rw [hstep] at hrun
          have h1 := cooldownInv_step cfg strat symbol i c pc (hist ++ [c]) st st1 hstep hinv
          have h2 := ih (i + 1) (some c.close) (hist ++ [c]) st1 st' hrun h1
          have hlen : i + (c :: rest).length = i + 1 + rest.length := by
            simp only [List.length_cons]
            omega
          rw [hlen]
          exact h2

/-- C5 (confirmed): in any completed run, every recorded BUY is at least
`COOLDOWN_CANDLES` candle indices after every earlier recorded SELL — the
counter starts inactive, is reset to 0 by every executed sell, is bumped at
the top of every later iteration, and a BUY is blocked while it is active
and below the configured length. -/
theorem C5_cooldown_enforcement (cfg : Config) (strat : Strategy) (candles : List Candle)
    (symbol : String) (st' : EngineState)
    (hrun : run_backtest cfg strat candles symbol = some st')
    (r1 r2 : TradeRecord) (h1 : r1 ∈ st'.results) (h2 : r2 ∈ st'.results)
    (hs : r1.side = "SELL") (hb : r2.side = "BUY") (hlt : r1.idx < r2.idx) :
    cfg.COOLDOWN_CANDLES ≤ r2.idx - r1.idx := by
  have hinv0 : CooldownInv cfg.COOLDOWN_CANDLES 0 (initState cfg) := by
    refine ⟨?_, ?_, ?_, ?_⟩ <;> simp [initState]
  have hinv := runAux_cooldownInv cfg strat symbol candles 0 none [] (initState cfg) st'
    hrun hinv0
  have := hinv.2.2.2 r1 h1 r2 h2 hs hb hlt
  omega

/-- A concrete configuration exercising the engine: 100 cash, stop loss
−50%, take profit +1000%, risk 100% of cash per trade, 1-candle cooldown,
EMA period 1. -/
def wCfg : Config := ⟨100, -50, 1000, 100, 1, 1⟩

/-- A concrete strategy: SELL while a position is open, BUY otherwise
(returned in lower case, exercising the engine's normalization). -/
def wStrategy : Strategy := fun _ b symbol =>
  if b.has_position symbol then .value (some "sell") else .value (some "buy")

/-- Four concrete candles (timestamp, open, high, low, close, volume). -/
def wCandles : List Candle :=
  [⟨0, 1, 1, 1, 1, 0⟩, ⟨1, 2, 2, 2, 2, 0⟩, ⟨2, 2, 2, 2, 2, 0⟩, ⟨3, 3, 3, 3, 2, 0⟩]

/-- The final engine state of running `wStrategy` over `wCandles`: a BUY at
index 1, a SELL at index 2 and a BUY at index 3 (the cooldown of 1 candle is
exactly satisfied). -/
def wFinal : EngineState :=
  ⟨⟨100, 0, [("SOL", ⟨100 / 3, 3⟩)]⟩,
   [⟨1, 1, "BUY", "SOL", 2, 50, 100, "STRATEGY", 0⟩,
    ⟨2, 2, "SELL", "SOL", 2, 50, 100, "STRATEGY", 0⟩,
    ⟨3, 3, "BUY", "SOL", 3, 100 / 3, 100, "STRATEGY", 0⟩],
   [100, 100, 100, 100], some 1, some 2, some 3⟩

/-- Evaluation helper: `str.upper()` on the literal "buy". -/
lemma pyUpper_buy : pyUpper "buy" = "BUY" := rfl

/-- Evaluation helper: `str.upper()` on the literal "sell". -/
lemma pyUpper_sell : pyUpper "sell" = "SELL" := rfl

/-- The concrete run evaluates to `wFinal`. -/
lemma wRun_eq : run_backtest wCfg wStrategy wCandles "SOL" = some wFinal := by
  have s1 : ("buy" = "") = False := by simp
  have s2 : ("sell" = "") = False := by simp
  have s3 : ("BUY" = "SELL") = False := by simp
  have s4 : ("SELL" = "BUY") = False := by simp
  norm_num [run_backtest, runAux, engineStep, stepPre, execBuy, execSell, initState,
    wCfg, wStrategy, wCandles, wFinal, bumpCooldown, tradePnl,
    _check_stop_loss_take_profit, _update_ema, _is_above_trend, _calculate_position_size,
    PaperBroker.init, PaperBroker.has_position, PaperBroker.position_amount,
    PaperBroker.position_entry, PaperBroker.get_equity, PaperBroker._buy, PaperBroker._sell,
    lookupPos, lookupPrice, setPos, pyUpper_buy, pyUpper_sell, s1, s2, s3, s4]

/-- Witness for C5 at a concrete input: in the `wCfg` run the SELL at index 2
is followed by a BUY at index 3, and the cooldown bound holds there. -/
theorem C5_cooldown_enforcement_witness :
    wCfg.COOLDOWN_CANDLES ≤
      (⟨3, 3, "BUY", "SOL", 3, 100 / 3, 100, "STRATEGY", 0⟩ : TradeRecord).idx -
        (⟨2, 2, "SELL", "SOL", 2, 50, 100, "STRATEGY", 0⟩ : TradeRecord).idx :=
  C5_cooldown_enforcement wCfg wStrategy wCandles "SOL" wFinal wRun_eq
    ⟨2, 2, "SELL", "SOL", 2, 50, 100, "STRATEGY", 0⟩
    ⟨3, 3, "BUY", "SOL", 3, 100 / 3, 100, "STRATEGY", 0⟩
    (by simp [wFinal]) (by simp [wFinal]) rfl rfl (by norm_num)

/-- C6 counterexample: the engine wraps the `strategy.on_candle` call in no
try/except, so a strategy that raises aborts the whole run (the embedded run
returns `none`), whereas the same run with a strategy returning `None` (HOLD)
completes — contradicting the claim that a strategy exception is treated as
HOLD for the step and never aborts the run. -/
theorem C6_counterexample :
    run_backtest defaultConfig (fun _ _ _ => .exc) [⟨0, 10, 10, 10, 10, 0⟩] "BTC" = none ∧
    run_backtest defaultConfig (fun _ _ _ => .value none) [⟨0, 10, 10, 10, 10, 0⟩] "BTC" =
      some ⟨PaperBroker.init 10000, [], [10000], none, none, none⟩ := by
  constructor
  · rfl
  · norm_num [run_backtest, runAux, engineStep, stepPre, initState, bumpCooldown,
      _check_stop_loss_take_profit, defaultConfig,
      PaperBroker.init, PaperBroker.has_position, PaperBroker.get_equity, lookupPos]

/-- C6 (amended): string signals are normalized case-insensitively — two
strategies whose returned nonempty strings agree after upper-casing drive
the step identically — and an empty or unrecognized returned value acts
exactly like HOLD (returning `None`); but an exception raised where the
strategy is consulted propagates: the step (and hence the run) aborts. -/
theorem C6_signal_handling (cfg : Config) (symbol : String) (i : ℕ)
    (candle : Candle) (prev_close : Option ℚ) (history : List Candle) (st : EngineState)
    (strat1 strat2 : Strategy) :
    (st.broker.has_position symbol = false →
      strat1 history (stepPre cfg symbol i candle prev_close st).broker symbol = .exc →
      engineStep cfg strat1 symbol i candle prev_close history st = none) ∧
    (∀ s1 s2 : String,
      strat1 history (stepPre cfg symbol i candle prev_close st).broker symbol =
        .value (some s1) →
      strat2 history (stepPre cfg symbol i candle prev_close st).broker symbol =
        .value (some s2) →
      s1 ≠ "" → s2 ≠ "" → pyUpper s1 = pyUpper s2 →
      engineStep cfg strat1 symbol i candle prev_close history st =
        engineStep cfg strat2 symbol i candle prev_close history st) ∧
    (∀ s : String,
      strat1 history (stepPre cfg symbol i candle prev_close st).broker symbol =
        .value (some s) →
      strat2 history (stepPre cfg symbol i candle prev_close st).broker symbol =
        .value none →
      pyUpper s ≠ "BUY" → pyUpper s ≠ "SELL" →
      engineStep cfg strat1 symbol i candle prev_close history st =
        engineStep cfg strat2 symbol i candle prev_close history st) := by
  refine ⟨?_, ?_, ?_⟩
  · intro hnp hexc
    have hchk : _check_stop_loss_take_profit cfg
        (stepPre cfg symbol i candle prev_close st).broker symbol candle.«open» = none := by
      unfold _check_stop_loss_take_profit
      rw [if_pos]
      rw [stepPre_broker, hnp]
      simp
    unfold engineStep
    rw [hchk, hexc]
  · intro s1 s2 h1 h2 hne1 hne2 hupper
    unfold engineStep
    cases hchk : _check_stop_loss_take_profit cfg
        (stepPre cfg symbol i candle prev_close st).broker symbol candle.«open» with
    | some trig => rfl
    | none =>
        rw [h1, h2]
        simp only []
        rw [if_neg hne1, if_neg hne2, hupper]
  · intro s h1 h2 hnb hns
    unfold engineStep
    cases hchk : _check_stop_loss_take_profit cfg
        (stepPre cfg symbol i candle prev_close st).broker symbol candle.«open» with
    | some trig => rfl
    | none =>
        rw [h1, h2]
        simp only []
        by_cases hs : s = ""
        · subst hs
          rfl
        · rw [if_neg hs]
          split
          · next heq =>
              exact absurd (Option.some_injective _ heq) hnb
          · next heq =>
              exact absurd (Option.some_injective _ heq) hns
          · rfl

/-- Witness for C6_signal_handling at a concrete input: "bUy" and "BUY" act
identically (case-insensitive normalization), checked on a fresh state. -/
theorem C6_signal_handling_witness :
    engineStep defaultConfig (fun _ _ _ => .value (some "bUy")) "BTC" 0
        ⟨0, 10, 10, 10, 10, 0⟩ none [] (initState defaultConfig) =
      engineStep defaultConfig (fun _ _ _ => .value (some "BUY")) "BTC" 0
        ⟨0, 10, 10, 10, 10, 0⟩ none [] (initState defaultConfig) :=
  (C6_signal_handling defaultConfig "BTC" 0 ⟨0, 10, 10, 10, 10, 0⟩ none []
      (initState defaultConfig)
      (fun _ _ _ => .value (some "bUy")) (fun _ _ _ => .value (some "BUY"))).2.1
    "bUy" "BUY" rfl rfl (by simp) (by simp) rfl

/-- C7 counterexample: on a candle whose open price is −1, the engine does
NOT skip the step: the strategy is still consulted (a raising strategy
aborts the run on that very candle) and an equity sample IS recorded from
the invalid price (the HOLD run over the single invalid candle ends with an
equity curve of length 1, not 0). -/
theorem C7_counterexample :
    run_backtest defaultConfig (fun _ _ _ => .exc) [⟨0, -1, -1, -1, -1, 0⟩] "BTC" = none ∧
    (∃ st', run_backtest defaultConfig (fun _ _ _ => .value none)
        [⟨0, -1, -1, -1, -1, 0⟩] "BTC" = some st' ∧ st'.equity_curve.length = 1) := by
  constructor
  · rfl
  · refine ⟨⟨PaperBroker.init 10000, [], [10000], none, none, none⟩, ?_, rfl⟩
    norm_num [run_backtest, runAux, engineStep, stepPre, initState, bumpCooldown,
      _check_stop_loss_take_profit, defaultConfig,
      PaperBroker.init, PaperBroker.has_position, PaperBroker.get_equity, lookupPos]

/-- C7 (amended): the engine performs no per-step price validation — the
candle is processed normally (the equity sample at the candle open is always
appended) — but no trade can EXECUTE at a non-positive open price, because
both `_buy` and `_sell` reject non-positive prices (and the computed position
size is 0), so the results list is unchanged on such a step. -/
theorem C7_non_positive_price (cfg : Config) (strat : Strategy) (symbol : String) (i : ℕ)
    (candle : Candle) (prev_close : Option ℚ) (history : List Candle) (st st' : EngineState)
    (hprice : candle.«open» ≤ 0)
    (h : engineStep cfg strat symbol i candle prev_close history st = some st') :
    st'.results = st.results ∧
    st'.equity_curve = st.equity_curve ++ [st.broker.get_equity [(symbol, candle.«open»)]] := by
  rcases engineStep_cases cfg strat symbol i candle prev_close history st st' h with
    h1 | ⟨trig, h1⟩ | h1
  · subst h1
    exact ⟨rfl, rfl⟩
  · rcases execSell_spec i candle.timestamp symbol candle.«open» trig
        (stepPre cfg symbol i candle prev_close st) with he | ⟨amt, hpos, hok, he⟩
    · rw [he] at h1
      subst h1
      exact ⟨rfl, rfl⟩
    · obtain ⟨-, hp, -⟩ := (sell_success_iff _ _ _ _).mp hok
      linarith
  · rcases execBuy_spec cfg i candle.timestamp symbol candle.«open»
        (stepPre cfg symbol i candle prev_close st) with he | ⟨amt, hok, -, -, he⟩
    · rw [he] at h1
      subst h1
      exact ⟨rfl, rfl⟩
    · obtain ⟨-, hp, -, -⟩ := (buy_success_iff _ _ _ _).mp hok
      linarith

/-- Witness for C7_non_positive_price at a concrete input: a single candle
with open −1 under a HOLD strategy records one equity sample and no trade. -/
theorem C7_non_positive_price_witness :
    (⟨PaperBroker.init 10000, [], [10000], none, none, none⟩ : EngineState).results =
        (initState defaultConfig).results ∧
      (⟨PaperBroker.init 10000, [], [10000], none, none, none⟩ : EngineState).equity_curve =
        (initState defaultConfig).equity_curve ++
          [(initState defaultConfig).broker.get_equity [("BTC", (-1 : ℚ))]] :=
  C7_non_positive_price defaultConfig (fun _ _ _ => .value none) "BTC" 0
    ⟨0, -1, -1, -1, -1, 0⟩ none [] (initState defaultConfig)
    ⟨PaperBroker.init 10000, [], [10000], none, none, none⟩
    (by norm_num)
    (by norm_num [engineStep, stepPre, initState, bumpCooldown,
      _check_stop_loss_take_profit, defaultConfig,
      PaperBroker.init, PaperBroker.has_position, PaperBroker.get_equity, lookupPos])

/-- stepPre at loop index 0 leaves the EMA untouched (the engine only
updates the EMA when `i > 0`). -/
lemma stepPre_ema_zero (cfg : Config) (symbol : String) (candle : Candle)
    (prev_close : Option ℚ) (st : EngineState) :
    (stepPre cfg symbol 0 candle prev_close st).ema_value = st.ema_value := rfl

/-- C8 counterexample: there is no configured warm-up candle count consumed
by the engine — in the concrete `wCfg` run a BUY executes already at candle
index 1 (the second candle), and the strategy is consulted from the very
first candle (a raising strategy aborts the run on candle index 0) — so
trading is not "skipped entirely until a minimum warm-up candle count has
elapsed". -/
theorem C8_counterexample :
    (∃ st', run_backtest wCfg wStrategy wCandles "SOL" = some st' ∧
      ∃ r ∈ st'.results, r.side = "BUY" ∧ r.idx = 1) ∧
    run_backtest wCfg (fun _ _ _ => .exc) [⟨0, 1, 1, 1, 1, 0⟩] "SOL" = none := by
  constructor
  · exact ⟨wFinal, wRun_eq,
      ⟨1, 1, "BUY", "SOL", 2, 50, 100, "STRATEGY", 0⟩, by simp [wFinal], rfl, rfl⟩
  · rfl

/-- C8 (amended): the engine has no `min_candles_before_trading` parameter
(the configuration consumed by the engine consists of `INITIAL_BALANCE`,
`STOP_LOSS_PCT`, `TAKE_PROFIT_PCT`, `RISK_PER_TRADE_PCT`, `COOLDOWN_CANDLES`
and `TREND_EMA_PERIOD` only); the only structural warm-up is that on the
very first candle (index 0, EMA still uninitialized, no position yet) no
trade can execute: BUYs are blocked by the trend filter returning false on
an uninitialized EMA, and there is nothing to sell. -/
theorem C8_no_configured_warmup (cfg : Config) (strat : Strategy) (symbol : String)
    (candle : Candle) (prev_close : Option ℚ) (history : List Candle) (st st' : EngineState)
    (hema : st.ema_value = none) (hpos : st.broker.has_position symbol = false)
    (h : engineStep cfg strat symbol 0 candle prev_close history st = some st') :
    st'.results = st.results := by
  rcases engineStep_cases cfg strat symbol 0 candle prev_close history st st' h with
    h1 | ⟨trig, h1⟩ | h1
  · subst h1
    rfl
  · rcases execSell_spec 0 candle.timestamp symbol candle.«open» trig
        (stepPre cfg symbol 0 candle prev_close st) with he | ⟨amt, hposamt, hok, he⟩
    · rw [he] at h1
      subst h1
      rfl
    · obtain ⟨-, -, hp⟩ := (sell_success_iff _ _ _ _).mp hok
      rw [stepPre_broker, hpos] at hp
      simp at hp
  · rcases execBuy_spec cfg 0 candle.timestamp symbol candle.«open»
        (stepPre cfg symbol 0 candle prev_close st) with he | ⟨amt, hok, htrend, -, he⟩
    · rw [he] at h1
      subst h1
      rfl
    · rw [stepPre_ema_zero, hema] at htrend
      simp [_is_above_trend] at htrend

/-- Witness for C8_no_configured_warmup at a concrete input: the first step
of a fresh default-configuration run executes no trade. -/
theorem C8_no_configured_warmup_witness :
    (⟨PaperBroker.init 10000, [], [10000], none, none, none⟩ : EngineState).results =
      (initState defaultConfig).results :=
  C8_no_configured_warmup defaultConfig (fun _ _ _ => .value (some "BUY")) "BTC"
    ⟨0, 10, 10, 10, 10, 0⟩ none [] (initState defaultConfig)
    ⟨PaperBroker.init 10000, [], [10000], none, none, none⟩
    rfl rfl
    (by norm_num [engineStep, stepPre, initState, bumpCooldown, execBuy,
      _check_stop_loss_take_profit, _is_above_trend, defaultConfig,
      PaperBroker.init, PaperBroker.has_position, PaperBroker.get_equity, lookupPos,
      show ("BUY" = "") = False from by simp, show pyUpper "BUY" = "BUY" from rfl])

/-- A raw CSV row as seen by `validate_candle_row` after `csv.DictReader`:
each field holds the parsed float, or `none` when `float(...)` would raise
on it (missing key or non-numeric text). -/
structure RawRow where
  timestamp : Option ℚ
  «open» : Option ℚ
  high : Option ℚ
  low : Option ℚ
  close : Option ℚ
  volume : Option ℚ
deriving Repr, DecidableEq

/-- Function `validate_candle_row(row, row_num)` of `src/data/load_csv.py`:
returns the validated candle, or the description of the first violated
precondition (the Python `ValueError` message, without the interpolated
numbers / row number). -/
def validate_candle_row (row : RawRow) : Except String Candle :=
  match row.timestamp with
  | none => .error "invalid timestamp"
  | some ts =>
    if ts ≤ 0 then .error "invalid timestamp"   -- "timestamp must be positive", re-wrapped
    else
      match row.«open», row.high, row.low, row.close, row.volume with
      | some o, some h, some l, some c, some v =>
          if o ≤ 0 then .error "open price must be positive"
          else if h ≤ 0 then .error "high price must be positive"
          else if l ≤ 0 then .error "low price must be positive"
          else if c ≤ 0 then .error "close price must be positive"
          else if v < 0 then .error "volume cannot be negative"
          else if h < l then .error "high lower than low"
          else if h < o ∨ h < c then .error "high is not the highest price"
          else if l > o ∨ l > c then .error "low is not the lowest price"
          else .ok ⟨ts, o, h, l, c, v⟩
      | _, _, _, _, _ => .error "invalid numeric value"

/-- The row loop of `load_candles` (lines 64-74): validated rows are
appended to `candles`; a `ValueError` appends its message to `errors` and
CONTINUES with the next row, except that reaching 10 accumulated errors
appends a suppression marker and breaks out of the loop. -/
def readRows : List RawRow → List Candle → List String → List Candle × List String
  | [], candles, errors => (candles, errors)
  | row :: rest, candles, errors =>
      match validate_candle_row row with
      | .ok c => readRows rest (candles ++ [c]) errors
      | .error e =>
          if 10 ≤ (errors ++ [e]).length then
            (candles, (errors ++ [e]) ++ ["... (additional errors suppressed)"])
          else readRows rest candles (errors ++ [e])

/-- The outcome of `load_candles`: `fatal` embeds the `sys.exit(1)` paths,
`ok` the normal return (carrying the row-error messages, which the Python
code only prints as a WARNING). -/
inductive LoadResult where
  | fatal : String → LoadResult
  | ok : List Candle → List String → LoadResult
deriving Repr, DecidableEq

/-- The row-processing core of `load_candles(path)` (the file-level
existence/size/header checks are I/O and not modelled): run the row loop;
report the collected row errors only as a warning; exit fatally only when
NO valid candle was collected. -/
def load_candles (rows : List RawRow) : LoadResult :=
  if (readRows rows [] []).1.isEmpty then .fatal "No valid candles found"
  else .ok (readRows rows [] []).1 (readRows rows [] []).2

/-- The candle a row contributes, if it validates. -/
def rowCandle (row : RawRow) : Option Candle :=
  match validate_candle_row row with
  | .ok c => some c
  | .error _ => none

/-- The error message a row contributes, if it fails validation. -/
def rowError (row : RawRow) : Option String :=
  match validate_candle_row row with
  | .ok _ => none
  | .error e => some e

/-- C9 counterexample: a sequence with a malformed first row (open price 0)
followed by a valid row is NOT rejected: `load_candles` returns the valid
candle, with the malformed row reduced to a warning message — the invalid
row is skipped and the remaining row continues into the simulation,
contradicting the claimed fatal rejection. -/
theorem C9_counterexample :
    load_candles
        [⟨some 1, some 0, some 1, some 1, some 1, some 0⟩,
         ⟨some 1, some 1, some 1, some 1, some 1, some 0⟩] =
      .ok [⟨1, 1, 1, 1, 1, 0⟩] ["open price must be positive"] := by
  norm_num [load_candles, readRows, validate_candle_row]

/-- The row loop never reaches the 10-error break when the total number of
invalid rows stays below it; it returns exactly the valid candles and one
message per invalid row, in order. -/
lemma readRows_no_break (rows : List RawRow) :
    ∀ (candles : List Candle) (errors : List String),
      errors.length + (rows.filterMap rowError).length ≤ 9 →
      readRows rows candles errors =
        (candles ++ rows.filterMap rowCandle, errors ++ rows.filterMap rowError) := by
  induction rows with
  | nil =>
      intro candles errors hlen
      simp [readRows]
  | cons r rest ih =>
      intro candles errors hlen
      cases hv : validate_candle_row r with
      | ok c =>
          have hrc : rowCandle r = some c := by simp [rowCandle, hv]
          have hre : rowError r = none := by simp [rowError, hv]
          simp only [readRows, hv]
          rw [ih (candles ++ [c]) errors
            (by simpa [List.filterMap_cons, hre] using hlen)]
          simp [List.filterMap_cons, hrc, hre]
      | error e =>
          have hrc : rowCandle r = none := by simp [rowCandle, hv]
          have hre : rowError r = some e := by simp [rowError, hv]
          have hlen' : errors.length + 1 + (rest.filterMap rowError).length ≤ 9 := by
            rw [List.filterMap_cons, hre] at hlen
            simpa [Nat.add_comm, Nat.add_assoc, Nat.add_left_comm] using hlen
          simp only [readRows, hv]
          rw [if_neg (by simp; omega)]
          rw [ih candles (errors ++ [e]) (by simpa using hlen')]
          simp [List.filterMap_cons, hrc, hre]

/-- C9 (amended): a malformed row does not reject the run — as long as fewer
than 10 rows are invalid, `load_candles` skips exactly the invalid rows,
returning the valid candles in order together with one warning message per
invalid row, and exits fatally only when no valid candle remains. -/
theorem C9_invalid_rows_skipped (rows : List RawRow)
    (hfew : (rows.filterMap rowError).length ≤ 9) :
    load_candles rows =
      if (rows.filterMap rowCandle).isEmpty then LoadResult.fatal "No valid candles found"
      else LoadResult.ok (rows.filterMap rowCandle) (rows.filterMap rowError) := by
  unfold load_candles
  rw [readRows_no_break rows [] [] (by simpa using hfew)]
  simp

/-- Witness for C9_invalid_rows_skipped at a concrete input: one bad row
(open 0) among one good row yields the good candle plus one warning. -/
theorem C9_invalid_rows_skipped_witness :
    load_candles
        [⟨some 1, some 0, some 1, some 1, some 1, some 0⟩,
         ⟨some 2, some 1, some 1, some 1, some 1, some 0⟩] =
      if ([⟨some 1, some 0, some 1, some 1, some 1, some 0⟩,
           ⟨some 2, some 1, some 1, some 1, some 1, some 0⟩] : List RawRow).filterMap
            rowCandle |>.isEmpty
      then LoadResult.fatal "No valid candles found"
      else LoadResult.ok
        (([⟨some 1, some 0, some 1, some 1, some 1, some 0⟩,
           ⟨some 2, some 1, some 1, some 1, some 1, some 0⟩] : List RawRow).filterMap rowCandle)
        (([⟨some 1, some 0, some 1, some 1, some 1, some 0⟩,
           ⟨some 2, some 1, some 1, some 1, some 1, some 0⟩] : List RawRow).filterMap rowError) :=
  C9_invalid_rows_skipped
    [⟨some 1, some 0, some 1, some 1, some 1, some 0⟩,
     ⟨some 2, some 1, some 1, some 1, some 1, some 0⟩]
    (by norm_num [List.filterMap_cons, rowError, validate_candle_row])

/-- The engine-level run invariant for a fixed traded symbol: cash is
non-negative, and the broker's positions dict is either empty or a single
binding for that symbol (so at most one position can ever be open, and only
for the traded symbol). -/
def EngineInv (symbol : String) (st : EngineState) : Prop :=
  0 ≤ st.broker.cash ∧
  (st.broker.positions = [] ∨ ∃ pos, st.broker.positions = [(symbol, pos)])

/-- Writing the traded symbol into a dict of the invariant's shape yields a
single binding for that symbol. -/
lemma setPos_single (l : List (String × Position)) (symbol : String) (p : Position)
    (h : l = [] ∨ ∃ q, l = [(symbol, q)]) :
    setPos l symbol p = [(symbol, p)] := by
  rcases h with rfl | ⟨q, rfl⟩
  · rfl
  · simp [setPos]

/-- One non-aborted engine step preserves the engine-level invariant. -/
lemma engineStep_engineInv (cfg : Config) (strat : Strategy) (symbol : String) (i : ℕ)
    (candle : Candle) (prev_close : Option ℚ) (history : List Candle) (st st' : EngineState)
    (h : engineStep cfg strat symbol i candle prev_close history st = some st')
    (hinv : EngineInv symbol st) :
    EngineInv symbol st' := by
  obtain ⟨hcash, hshape⟩ := hinv
  rcases engineStep_cases cfg strat symbol i candle prev_close history st st' h with
    h1 | ⟨trig, h1⟩ | h1
  · subst h1
    exact ⟨hcash, hshape⟩
  · rcases execSell_spec i candle.timestamp symbol candle.«open» trig
        (stepPre cfg symbol i candle prev_close st) with he | ⟨amt, hamt, hok, he⟩
    · rw [he] at h1
      subst h1
      exact ⟨hcash, hshape⟩
    · rw [he] at h1
      subst h1
      obtain ⟨-, hp, hposn⟩ := (sell_success_iff _ _ _ _).mp hok
      rw [stepPre_broker] at hposn
      have hpa : 0 < st.broker.position_amount symbol :=
        (has_position_iff_amount_pos _ _).mp hposn
      constructor
      · show 0 ≤ ((stepPre cfg symbol i candle prev_close st).broker._sell symbol amt
          candle.«open»).1.cash
        rw [sell_success_state _ _ _ _ hok]
        simp only [stepPre_broker]
        have hmin : 0 < min amt (st.broker.position_amount symbol) := lt_min hamt hpa
        nlinarith
      · show ((stepPre cfg symbol i candle prev_close st).broker._sell symbol amt
            candle.«open»).1.positions = [] ∨ _
        rw [sell_success_state _ _ _ _ hok]
        simp only [stepPre_broker]
        exact Or.inr ⟨⟨0, 0⟩, setPos_single _ _ _ hshape⟩
  · rcases execBuy_spec cfg i candle.timestamp symbol candle.«open»
        (stepPre cfg symbol i candle prev_close st) with he | ⟨amt, hok, -, -, he⟩
    · rw [he] at h1
      subst h1
      exact ⟨hcash, hshape⟩
    · rw [he] at h1
      subst h1
      obtain ⟨-, -, -, hle⟩ := (buy_success_iff _ _ _ _).mp hok
      rw [stepPre_broker] at hle
      constructor
      · show 0 ≤ ((stepPre cfg symbol i candle prev_close st).broker._buy symbol amt
          candle.«open»).1.cash
        rw [buy_success_state _ _ _ _ hok]
        simp only [stepPre_broker]
        linarith
      · show ((stepPre cfg symbol i candle prev_close st).broker._buy symbol amt
            candle.«open»).1.positions = [] ∨ _
        rw [buy_success_state _ _ _ _ hok]
        simp only [stepPre_broker]
        exact Or.inr ⟨⟨amt, candle.«open»⟩, setPos_single _ _ _ hshape⟩

/-- The whole candle loop preserves the engine-level invariant. -/
lemma runAux_engineInv (cfg : Config) (strat : Strategy) (symbol : String)
    (candles : List Candle) :
    ∀ (i : ℕ) (prev_close : Option ℚ) (history : List Candle) (st st' : EngineState),
      runAux cfg strat symbol i prev_close history candles st = some st' →
      EngineInv symbol st → EngineInv symbol st' := by
  induction candles with
  | nil =>
      intro i pc hist st st' hrun hinv
      simp only [runAux] at hrun
      obtain rfl := Option.some_injective _ hrun
      exact hinv
  | cons c rest ih =>
      intro i pc hist st st' hrun hinv
      simp only [runAux] at hrun
      cases hstep : engineStep cfg strat symbol i c pc (hist ++ [c]) st with
      | none =>
          rw [hstep] at hrun
          exact absurd hrun (by simp)
      | some st1 =>
          rw [hstep] at hrun
          exact ih (i + 1) (some c.close) (hist ++ [c]) st1 st' hrun
            (engineStep_engineInv cfg strat symbol i c pc (hist ++ [c]) st st1 hstep hinv)

/-- C10 (confirmed): with a non-negative configured starting balance, the
run-level single-position/cash discipline holds: the invariant is true of
the freshly initialized state, every non-aborted engine step preserves it,
and hence any completed `run_backtest` ends (and stays at every step) with
non-negative cash and a positions dict that is empty or a single binding for
the one symbol passed to the run — the engine's trade flow restores the
system-wide single-position guarantee the broker alone does not enforce. -/
theorem C10_engine_restores_single_position (cfg : Config) (strat : Strategy)
    (candles : List Candle) (symbol : String)
    (hbal : 0 ≤ cfg.INITIAL_BALANCE) :
    EngineInv symbol (initState cfg) ∧
    (∀ (i : ℕ) (candle : Candle) (prev_close : Option ℚ) (history : List Candle)
        (st st' : EngineState),
      engineStep cfg strat symbol i candle prev_close history st = some st' →
      EngineInv symbol st → EngineInv symbol st') ∧
    (∀ st', run_backtest cfg strat candles symbol = some st' →
      0 ≤ st'.broker.cash ∧
      (st'.broker.positions = [] ∨ ∃ pos, st'.broker.positions = [(symbol, pos)])) := by
  have hinit : EngineInv symbol (initState cfg) := by
    exact ⟨hbal, Or.inl rfl⟩
  refine ⟨hinit, ?_, ?_⟩
  · intro i candle prev_close history st st' hstep hinv
    exact engineStep_engineInv cfg strat symbol i candle prev_close history st st' hstep hinv
  · intro st' hrun
    exact runAux_engineInv cfg strat symbol candles 0 none [] (initState cfg) st' hrun hinit

/-- Witness for C10 at a concrete input: the `wCfg` run ends with zero cash
(non-negative) and a single "SOL" position. -/
theorem C10_engine_restores_single_position_witness :
    0 ≤ wFinal.broker.cash ∧
      (wFinal.broker.positions = [] ∨ ∃ pos, wFinal.broker.positions = [("SOL", pos)]) :=
  (C10_engine_restores_single_position wCfg wStrategy wCandles "SOL"
      (by norm_num [wCfg])).2.2 wFinal wRun_eq
